import Mathlib

/-!
Verification of the ADVZ payload range-proof subsystem
(`src/primitives/src/vid/advz/payload_prover.rs`).

Shallow embedding conventions:
* bytes are `Nat`s, byte strings are `List Nat`;
* field elements, KZG commitments, KZG opening proofs and domain points are
  represented by `Nat` (canonical codes); the out-of-scope collaborators
  (`commit`, `multi_open`, `verify`, the commitment-list hash and the
  evaluation domain) are fields of the `Advz` structure, so every theorem
  quantifies over them;
* `Range<usize>` is `BRange` (half-open, `start`/`stop`);
* `VidResult<Result<(),()>>` outcomes are collapsed into `VResult`:
  `argErr` = outer `Err(VidError::Argument _)`, `vfail` = `Ok(Err(()))`,
  `vok` = `Ok(Ok(()))`, and `panics` marks a reachable Rust panic
  (a failing `assert_eq!` or an out-of-bounds index);
* fallible prover calls return `Except Unit _` with `.error ()` standing for
  the argument error.
-/

/-- Rust `Range<usize>`: half-open interval of `usize` indices.
(`end` is a Lean keyword, so the field is named `stop`.) -/
structure BRange where
  start : Nat
  stop : Nat
deriving DecidableEq, Repr

/-- `Range::len`: `end - start` (truncated at zero, as for `usize`). -/
def BRange.len (r : BRange) : Nat := r.stop - r.start

/-- `Range::is_empty`: `!(start < end)`. -/
def BRange.isEmpty (r : BRange) : Bool := decide (r.stop ≤ r.start)

/-- Modelled from the spec: the lossless packing of one group of at most
`elem_byte_capacity` bytes into a field element (little-endian value). -/
def packElem (chunk : List Nat) : Nat :=
  chunk.foldr (fun b acc => b + 256 * acc) 0

/-- Modelled from the spec: `bytes_to_field` (file `bytes_to_field.rs`, not under
`src/`) packs consecutive groups of `c = elem_byte_capacity` payload bytes
losslessly into one field element each; a shorter final group still yields an
element, so a byte string of length `n` yields `⌈n / c⌉` elements.
Element `i` is the packed value of bytes `[i*c, (i+1)*c)`. -/
def bytesToField (c : Nat) (l : List Nat) : List Nat :=
  (List.range ((l.length + c - 1) / c)).map (fun i => packElem ((l.drop (i * c)).take c))

/-- Rust slice `l[a..b]` (as a `Vec`): `b - a` elements starting at `a`. -/
def sliceBytes (l : List Nat) (a b : Nat) : List Nat := (l.drop a).take (b - a)

/-- Check results (`VidResult<()>`) compare decidably. -/
instance : DecidableEq (Except Unit Unit) := fun a b =>
  match a, b with
  | Except.ok (), Except.ok () => isTrue rfl
  | Except.error (), Except.error () => isTrue rfl
  | Except.ok (), Except.error () => isFalse (by simp)
  | Except.error (), Except.ok () => isFalse (by simp)

/-- The outcome of a `payload_verify` call.
`argErr` = `Err(VidError::Argument _)`, `vfail` = `Ok(Err(()))`,
`vok` = `Ok(Ok(()))`, `panics` = reachable Rust panic. -/
inductive VResult where
  | argErr : VResult
  | vfail : VResult
  | vok : VResult
  | panics : VResult
deriving DecidableEq, Repr

/-- The scheme instance `Advz<E, H>` restricted to what `payload_prover.rs`
uses. `payload_chunk_size` is a stored parameter; `elem_byte_cap` is the
constant `elem_byte_capacity::<KzgEval<E>>()`; the remaining fields are the
out-of-scope collaborators, modelled from the spec as total functions:
`commit` is `UnivariateKzgPCS::commit(&self.ck, ·)` applied to the polynomial
interpolating the given evaluations over the domain, `multiOpen` is the
proofs component of `UnivariateKzgPCS::multi_open(&self.ck, ·, ·)`,
`kzgVerify` is `UnivariateKzgPCS::verify(&self.vk, ·, ·, ·, ·)`, `hash` is
`Self::poly_commits_hash`, and the evaluation domain is the point sequence
`0, 1, ..., domain_size - 1` (points named by their domain index). -/
structure Advz where
  payload_chunk_size : Nat
  elem_byte_cap : Nat
  domain_size : Nat
  commit : List Nat → Nat
  multiOpen : List Nat → List Nat → List Nat
  kzgVerify : Nat → Nat → Nat → Nat → Bool
  hash : List Nat → Nat

/-- `SmallRangeProof<P>`. -/
structure SmallRangeProof where
  proofs : List Nat
  prefix_bytes : List Nat
  suffix_bytes : List Nat
  chunk_range : BRange
deriving DecidableEq, Repr

/-- `LargeRangeProof<F>`. -/
structure LargeRangeProof where
  prefix_elems : List Nat
  suffix_elems : List Nat
  prefix_bytes : List Nat
  suffix_bytes : List Nat
  chunk_range : BRange
deriving DecidableEq, Repr

/-- `Statement<Advz>` (from `vid/payload_prover.rs`, interface only):
`common` is the commitment list `common.poly_commits`, `commit` the
fingerprint. -/
structure Statement where
  payload_subslice : List Nat
  range : BRange
  commit : Nat
  common : List Nat
deriving DecidableEq, Repr

/-- `fn index_coarsen(index, denominator) = index / denominator`. -/
def index_coarsen (index denominator : Nat) : Nat := index / denominator

/-- `fn index_refine(index, multiplier) = index * multiplier`. -/
def index_refine (index multiplier : Nat) : Nat := index * multiplier

/-- `fn range_coarsen`. The source asserts `!range.is_empty()`; every caller
has already rejected empty ranges, and all theorems below about it assume a
non-empty input range. -/
def range_coarsen (range : BRange) (denominator : Nat) : BRange :=
  { start := index_coarsen range.start denominator
    stop := index_coarsen (range.stop - 1) denominator + 1 }

/-- `fn range_refine`. Same non-emptiness assertion remark as `range_coarsen`. -/
def range_refine (range : BRange) (multiplier : Nat) : BRange :=
  { start := index_refine range.start multiplier
    stop := index_refine range.stop multiplier }

def Advz.index_byte_to_elem (a : Advz) (index : Nat) : Nat :=
  index_coarsen index a.elem_byte_cap

def Advz.index_poly_to_byte (a : Advz) (index : Nat) : Nat :=
  index_refine index (a.payload_chunk_size * a.elem_byte_cap)

def Advz.range_byte_to_elem (a : Advz) (range : BRange) : BRange :=
  range_coarsen range a.elem_byte_cap

def Advz.range_elem_to_byte (a : Advz) (range : BRange) : BRange :=
  range_refine range a.elem_byte_cap

def Advz.range_elem_to_byte_clamped (a : Advz) (range : BRange) (len : Nat) : BRange :=
  let result := a.range_elem_to_byte range
  { start := result.start, stop := min result.stop len }

def Advz.range_elem_to_poly (a : Advz) (range : BRange) : BRange :=
  range_coarsen range a.payload_chunk_size

def Advz.range_byte_to_poly (a : Advz) (range : BRange) : BRange :=
  range_coarsen range (a.payload_chunk_size * a.elem_byte_cap)

/-- `fn check_range_nonempty_and_inside_payload`. -/
def check_range_nonempty_and_inside_payload (payload : List Nat) (range : BRange) :
    Except Unit Unit :=
  if range.isEmpty then Except.error ()
  else if payload.length < range.stop then Except.error ()
  else Except.ok ()

/-- `fn check_range_poly`. -/
def check_range_poly (range_poly : BRange) : Except Unit Unit :=
  if range_poly.len ≠ 1 then Except.error () else Except.ok ()

/-- `Advz::check_stmt_proof_consistency`. -/
def check_stmt_proof_consistency (stmt : Statement) (proof_range : BRange) :
    Except Unit Unit :=
  if stmt.range.isEmpty then Except.error ()
  else if stmt.payload_subslice.length ≠ stmt.range.len then Except.error ()
  else if stmt.range ≠ proof_range then Except.error ()
  else Except.ok ()

/-- `Advz::check_common_commit_consistency`. -/
def Advz.check_common_commit_consistency (a : Advz) (common : List Nat) (commit : Nat) :
    Except Unit Unit :=
  if commit ≠ a.hash common then Except.error () else Except.ok ()

/-- The polynomial owning the requested range, as built by both provers:
`self.polynomial(bytes_to_field(payload[start_namespace_byte..]).take(payload_chunk_size))`.
The advz helper `polynomial` (not under `src/`) is modelled from the spec as
interpolation of the listed evaluations over the domain, so a polynomial is
represented by its evaluation list. -/
def Advz.rangePolynomial (a : Advz) (payload : List Nat) (start_namespace_byte : Nat) :
    List Nat :=
  (bytesToField a.elem_byte_cap (payload.drop start_namespace_byte)).take a.payload_chunk_size

/-- The input points `self.eval_domain.elements().skip(offset_elem).take(range_elem.len())`,
identical in both the small-range prover and verifier. -/
def Advz.inputPoints (a : Advz) (offset_elem count : Nat) : List Nat :=
  ((List.range a.domain_size).drop offset_elem).take count

/-- `PayloadProver<SmallRangeProof>::payload_proof`. The `multi_open`
collaborator is total in this model, so its wrapped errors do not arise. -/
def Advz.payload_proof_small (a : Advz) (payload : List Nat) (range : BRange) :
    Except Unit SmallRangeProof :=
  match check_range_nonempty_and_inside_payload payload range with
  | Except.error e => Except.error e
  | Except.ok _ =>
    let range_elem := a.range_byte_to_elem range
    let range_poly := a.range_elem_to_poly range_elem
    let start_namespace_byte := a.index_poly_to_byte range_poly.start
    let offset_elem := range_elem.start - a.index_byte_to_elem start_namespace_byte
    let range_elem_byte := a.range_elem_to_byte_clamped range_elem payload.length
    match check_range_poly range_poly with
    | Except.error e => Except.error e
    | Except.ok _ =>
      let polynomial := a.rangePolynomial payload start_namespace_byte
      let points := a.inputPoints offset_elem range_elem.len
      Except.ok
        { proofs := a.multiOpen polynomial points
          prefix_bytes := sliceBytes payload range_elem_byte.start range.start
          suffix_bytes := sliceBytes payload range.stop range_elem_byte.stop
          chunk_range := range }

/-- `PayloadProver<SmallRangeProof>::payload_verify`. The source's
`assert_eq!(data_elems.len(), points.len())` and the slice index
`stmt.common.poly_commits[range_poly.start]` are modelled by the `panics`
outcome when they would abort. -/
def Advz.payload_verify_small (a : Advz) (stmt : Statement) (proof : SmallRangeProof) :
    VResult :=
  match check_stmt_proof_consistency stmt proof.chunk_range with
  | Except.error _ => VResult.argErr
  | Except.ok _ =>
    let range_elem := a.range_byte_to_elem proof.chunk_range
    let range_poly := a.range_elem_to_poly range_elem
    let start_namespace_byte := a.index_poly_to_byte range_poly.start
    let offset_elem := range_elem.start - a.index_byte_to_elem start_namespace_byte
    match check_range_poly range_poly with
    | Except.error _ => VResult.argErr
    | Except.ok _ =>
      match a.check_common_commit_consistency stmt.common stmt.commit with
      | Except.error _ => VResult.argErr
      | Except.ok _ =>
        let data_elems := bytesToField a.elem_byte_cap
          (proof.prefix_bytes ++ stmt.payload_subslice ++ proof.suffix_bytes)
        let points := a.inputPoints offset_elem range_elem.len
        if data_elems.length ≠ proof.proofs.length then VResult.argErr
        else if data_elems.length ≠ points.length then VResult.panics
        else if stmt.common.length ≤ range_poly.start then VResult.panics
        else
          let poly_commit := stmt.common.getD range_poly.start 0
          if (points.zip (data_elems.zip proof.proofs)).all
              (fun x => a.kzgVerify poly_commit x.1 x.2.1 x.2.2)
          then VResult.vok else VResult.vfail

/-- `PayloadProver<LargeRangeProof>::payload_proof`. -/
def Advz.payload_proof_large (a : Advz) (payload : List Nat) (range : BRange) :
    Except Unit LargeRangeProof :=
  match check_range_nonempty_and_inside_payload payload range with
  | Except.error e => Except.error e
  | Except.ok _ =>
    let range_elem := a.range_byte_to_elem range
    let range_poly := a.range_elem_to_poly range_elem
    let start_namespace_byte := a.index_poly_to_byte range_poly.start
    let offset_elem := range_elem.start - a.index_byte_to_elem start_namespace_byte
    let range_elem_byte := a.range_elem_to_byte_clamped range_elem payload.length
    match check_range_poly range_poly with
    | Except.error e => Except.error e
    | Except.ok _ =>
      let elems := (bytesToField a.elem_byte_cap (payload.drop start_namespace_byte)).take
        a.payload_chunk_size
      Except.ok
        { prefix_elems := elems.take offset_elem
          suffix_elems := (elems.drop offset_elem).drop range_elem.len
          prefix_bytes := sliceBytes payload range_elem_byte.start range.start
          suffix_bytes := sliceBytes payload range.stop range_elem_byte.stop
          chunk_range := range }

/-- `PayloadProver<LargeRangeProof>::payload_verify`. The slice index
`stmt.common.poly_commits[range_poly.start]` is modelled by the `panics`
outcome when it would abort. This verifier never consults the opening-verify
collaborator `kzgVerify`: only `commit` is recomputed. -/
def Advz.payload_verify_large (a : Advz) (stmt : Statement) (proof : LargeRangeProof) :
    VResult :=
  match check_stmt_proof_consistency stmt proof.chunk_range with
  | Except.error _ => VResult.argErr
  | Except.ok _ =>
    let range_poly := a.range_byte_to_poly proof.chunk_range
    match check_range_poly range_poly with
    | Except.error _ => VResult.argErr
    | Except.ok _ =>
      match a.check_common_commit_consistency stmt.common stmt.commit with
      | Except.error _ => VResult.argErr
      | Except.ok _ =>
        let poly_commit := a.commit
          (proof.prefix_elems ++
            bytesToField a.elem_byte_cap
              (proof.prefix_bytes ++ stmt.payload_subslice ++ proof.suffix_bytes) ++
            proof.suffix_elems)
        if stmt.common.length ≤ range_poly.start then VResult.panics
        else if poly_commit ≠ stmt.common.getD range_poly.start 0 then VResult.vfail
        else VResult.vok

/-- Modelled from the spec: `disperse` (not under `src/`) splits the payload's
field elements into groups of `payload_chunk_size` (one polynomial each, the
last possibly shorter), commits to each polynomial in payload order to form
`common.poly_commits`, and fingerprints that list to form `commit`.
Returns `(commit, poly_commits)`. -/
def Advz.disperse (a : Advz) (payload : List Nat) : Nat × List Nat :=
  let elems := bytesToField a.elem_byte_cap payload
  let num_polys := (elems.length + a.payload_chunk_size - 1) / a.payload_chunk_size
  let poly_commits := (List.range num_polys).map
    (fun j => a.commit ((elems.drop (j * a.payload_chunk_size)).take a.payload_chunk_size))
  (a.hash poly_commits, poly_commits)

/-- The honest statement `{range, payload[range], commit, common}` with
`commit`/`common` produced by `disperse` on the payload. -/
def Advz.honestStatement (a : Advz) (payload : List Nat) (range : BRange) : Statement :=
  { payload_subslice := sliceBytes payload range.start range.stop
    range := range
    commit := (a.disperse payload).1
    common := (a.disperse payload).2 }

/-! ## Concrete instances used to evaluate the theorems on explicit inputs -/

/-- A small concrete scheme instance: 4 elements per polynomial, 4 bytes per
element (so 16 payload bytes per polynomial), a 4-point domain, and trivially
satisfiable collaborators. -/
def advzA : Advz :=
  { payload_chunk_size := 4
    elem_byte_cap := 4
    domain_size := 4
    commit := fun l => packElem l
    multiOpen := fun _ points => points.map (fun _ => 0)
    kzgVerify := fun _ _ _ _ => true
    hash := fun l => packElem l }

/-- A 20-byte payload (5 elements: 4 in polynomial 0, 1 in polynomial 1). -/
def payloadA : List Nat := List.range 20

/-- The byte range `[1, 3)`, inside polynomial 0 of `payloadA`. -/
def rangeA : BRange := { start := 1, stop := 3 }

/-- A byte range spanning polynomials 0 and 1 of `payloadA`. -/
def rangeSpan : BRange := { start := 0, stop := 17 }

/-- A statement for `rangeSpan` that passes the statement/proof-consistency
check (its commitment data is irrelevant: the polynomial-span check rejects
first). -/
def stmtSpan : Statement :=
  { payload_subslice := sliceBytes payloadA 0 17
    range := rangeSpan
    commit := 0
    common := [] }

/-- A small-range proof declaring `rangeSpan`. -/
def proofSpanS : SmallRangeProof :=
  { proofs := [], prefix_bytes := [], suffix_bytes := [], chunk_range := rangeSpan }

/-- A large-range proof declaring `rangeSpan`. -/
def proofSpanL : LargeRangeProof :=
  { prefix_elems := [], suffix_elems := [], prefix_bytes := [], suffix_bytes := [],
    chunk_range := rangeSpan }

/-- A statement with an empty range (both verifiers must reject it). -/
def stmtEmpty : Statement :=
  { payload_subslice := [], range := { start := 2, stop := 2 }, commit := 0, common := [] }

/-- An adversarial statement for byte range `[0, 1)`: its commitment data is
consistent (`commit = hash(common)`). -/
def stmtX : Statement :=
  { payload_subslice := [5]
    range := { start := 0, stop := 1 }
    commit := advzA.hash [7, 8, 9]
    common := [7, 8, 9] }

/-- An adversarial small-range proof for `stmtX`: 8 junk prefix bytes inflate
the reconstructed element count to `⌈(8 + 1 + 0) / 4⌉ = 3`, matched by 3 junk
opening proofs, while the statement's range touches a single element. -/
def proofX : SmallRangeProof :=
  { proofs := [0, 0, 0]
    prefix_bytes := [9, 9, 9, 9, 9, 9, 9, 9]
    suffix_bytes := []
    chunk_range := { start := 0, stop := 1 } }

/-- A consistent statement for byte range `[0, 2)` over a one-polynomial
commitment list. -/
def stmtY : Statement :=
  { payload_subslice := [1, 2]
    range := { start := 0, stop := 2 }
    commit := advzA.hash [7]
    common := [7] }

/-- A large-range proof matching `stmtY`'s range. -/
def proofY : LargeRangeProof :=
  { prefix_elems := []
    suffix_elems := []
    prefix_bytes := []
    suffix_bytes := [3, 4]
    chunk_range := { start := 0, stop := 2 } }


/-- An honest-shaped small-range proof matching `stmtY`'s range: one opening
proof for the single touched element. -/
def proofZ : SmallRangeProof :=
  { proofs := [4]
    prefix_bytes := []
    suffix_bytes := [3, 4]
    chunk_range := { start := 0, stop := 2 } }


/-! ## Arithmetic toolbox for ceiling division `(n + c - 1) / c` -/

theorem ceil_div_le (c n k : Nat) (hc : 0 < c) (h : n ≤ k * c) : (n + c - 1) / c ≤ k := by
  have h1 : n + c - 1 ≤ c - 1 + k * c := by omega
  calc (n + c - 1) / c ≤ (c - 1 + k * c) / c := Nat.div_le_div_right h1
    _ = (c - 1) / c + k := Nat.add_mul_div_right _ _ hc
    _ = k := by rw [Nat.div_eq_of_lt (by omega)]; omega

theorem ceil_div_mul (c k : Nat) (hc : 0 < c) : (k * c + c - 1) / c = k := by
  have h1 : k * c + c - 1 = c - 1 + k * c := by omega
  rw [h1, Nat.add_mul_div_right _ _ hc, Nat.div_eq_of_lt (by omega)]
  omega

theorem ceil_div_pos (c n : Nat) (hc : 0 < c) (hn : 0 < n) :
    (n + c - 1) / c = (n - 1) / c + 1 := by
  have h1 : n + c - 1 = (n - 1) + c := by omega
  rw [h1, Nat.add_div_right _ hc]

theorem ceil_div_sub (c n k : Nat) (hc : 0 < c) :
    (n - k * c + c - 1) / c = (n + c - 1) / c - k := by
  rcases Nat.le_total n (k * c) with h | h
  · have h1 : n - k * c = 0 := by omega
    rw [h1]
    have h2 : (n + c - 1) / c ≤ k := ceil_div_le c n k hc h
    rw [Nat.div_eq_of_lt (by omega)]
    omega
  · have h1 : n + c - 1 = (n - k * c + c - 1) + k * c := by omega
    rw [h1, Nat.add_mul_div_right _ _ hc, Nat.add_sub_cancel]

theorem ceil_div_min (c n k : Nat) (hc : 0 < c) :
    (min n (k * c) + c - 1) / c = min ((n + c - 1) / c) k := by
  rcases Nat.le_total n (k * c) with h | h
  · rw [Nat.min_eq_left h, Nat.min_eq_left (ceil_div_le c n k hc h)]
  · rw [Nat.min_eq_right h, ceil_div_mul c k hc,
      Nat.min_eq_right (le_trans (le_of_eq (ceil_div_mul c k hc).symm)
        (Nat.div_le_div_right (by omega)))]

/-! ## `bytesToField` toolbox -/

theorem bytesToField_length (c : Nat) (l : List Nat) :
    (bytesToField c l).length = (l.length + c - 1) / c := by
  simp [bytesToField]

theorem bytesToField_getElem (c : Nat) (l : List Nat) (i : Nat)
    (h : i < (bytesToField c l).length) :
    (bytesToField c l)[i] = packElem ((l.drop (i * c)).take c) := by
  simp [bytesToField]

theorem bytesToField_drop (c k : Nat) (l : List Nat) (hc : 0 < c) :
    bytesToField c (l.drop (k * c)) = (bytesToField c l).drop k := by
  apply List.ext_getElem
  · simp only [bytesToField_length, List.length_drop]
    exact ceil_div_sub c l.length k hc
  · intro i h1 h2
    rw [bytesToField_getElem, List.getElem_drop, bytesToField_getElem]
    rw [List.drop_drop]
    congr 2
    ring_nf

theorem bytesToField_take (c k : Nat) (l : List Nat) (hc : 0 < c) :
    (bytesToField c l).take k = bytesToField c (l.take (k * c)) := by
  apply List.ext_getElem
  · simp only [List.length_take, bytesToField_length]
    rw [Nat.min_comm (k * c) l.length, ceil_div_min c l.length k hc, Nat.min_comm]
  · intro i h1 h2
    have hik : i < k := by
      simp only [List.length_take, bytesToField_length] at h1
      omega
    have h3 : i * c + c ≤ k * c := by
      have h4 := Nat.mul_le_mul_right c (Nat.succ_le_of_lt hik)
      rw [Nat.succ_mul] at h4
      omega
    simp only [List.getElem_take, bytesToField, List.getElem_map, List.getElem_range]
    rw [List.drop_take, List.take_take]
    have h5 : min c (k * c - i * c) = c := Nat.min_eq_left (by omega)
    rw [h5]

/-! ## Slice and points toolbox -/

theorem sliceBytes_append (l : List Nat) (a b d : Nat) (hab : a ≤ b) (hbd : b ≤ d) :
    sliceBytes l a b ++ sliceBytes l b d = sliceBytes l a d := by
  unfold sliceBytes
  have h1 : d - a = (b - a) + (d - b) := by omega
  rw [h1, List.take_add, List.drop_drop]
  have h2 : a + (b - a) = b := by omega
  rw [h2]

theorem sliceBytes_length (l : List Nat) (a b : Nat) :
    (sliceBytes l a b).length = min (b - a) (l.length - a) := by
  simp [sliceBytes]

theorem inputPoints_eq_range' (a : Advz) (o k : Nat) (h : o + k ≤ a.domain_size) :
    a.inputPoints o k = List.range' o k := by
  apply List.ext_getElem
  · simp only [Advz.inputPoints, List.length_take, List.length_drop, List.length_range,
      List.length_range']
    omega
  · intro i h1 h2
    simp only [Advz.inputPoints, List.getElem_take, List.getElem_drop, List.getElem_range,
      List.getElem_range']
    omega

theorem all_zip3 (p : Nat × Nat × Nat → Bool) (xs ys zs : List Nat)
    (h : ∀ (i : Nat) (h1 : i < xs.length) (h2 : i < ys.length) (h3 : i < zs.length),
      p (xs[i], ys[i], zs[i]) = true) :
    (xs.zip (ys.zip zs)).all p = true := by
  rw [List.all_eq_true]
  intro x hx
  rw [List.mem_iff_getElem] at hx
  obtain ⟨i, hi, rfl⟩ := hx
  have hlen := hi
  simp only [List.length_zip, lt_min_iff] at hlen
  simp only [List.getElem_zip]
  exact h i hlen.1 hlen.2.1 hlen.2.2

theorem getD_map_range (f : Nat → Nat) (m j : Nat) (h : j < m) :
    (((List.range m).map f).getD j 0) = f j := by
  rw [List.getD_eq_getElem _ _ (by simpa using h)]
  simp

/-- Coarsening by `payload_chunk_size * elem_byte_cap` in one step agrees with
coarsening by `elem_byte_cap` and then by `payload_chunk_size` (for every
range, empty or not): `⌊x / c⌋ / s = ⌊x / (s * c)⌋`. -/
theorem range_byte_to_poly_two_step (a : Advz) (r : BRange) :
    a.range_byte_to_poly r = a.range_elem_to_poly (a.range_byte_to_elem r) := by
  simp only [Advz.range_byte_to_poly, Advz.range_elem_to_poly, Advz.range_byte_to_elem,
    range_coarsen, index_coarsen, Nat.add_sub_cancel]
  rw [Nat.div_div_eq_div_mul, Nat.div_div_eq_div_mul, Nat.mul_comm]

/-! ## Claim theorems -/

/-- C6: for every non-empty half-open range and every positive denominator `d`,
`range_coarsen` returns the range `[start / d, ((stop - 1) / d) + 1)` using
integer floor division; consequently every index `i` of the input range is
mapped by `index_coarsen` into the coarsened range (an index touching a
boundary is never excluded), and the coarsened range is non-empty. -/
theorem claim_C6 (r : BRange) (d i : Nat) (hd : 0 < d) (hne : r.start < r.stop)
    (hi1 : r.start ≤ i) (hi2 : i < r.stop) :
    range_coarsen r d = { start := r.start / d, stop := (r.stop - 1) / d + 1 } ∧
    ((range_coarsen r d).start ≤ index_coarsen i d ∧
      index_coarsen i d < (range_coarsen r d).stop) ∧
    (range_coarsen r d).start < (range_coarsen r d).stop := by
  refine ⟨rfl, ⟨?_, ?_⟩, ?_⟩
  · exact Nat.div_le_div_right hi1
  · exact Nat.lt_succ_of_le (Nat.div_le_div_right (by omega))
  · exact Nat.lt_succ_of_le (Nat.div_le_div_right (by omega))

/-- Witness for C6 at `r = [3, 9)`, `d = 4`, `i = 8`. -/
theorem claim_C6_witness :
    range_coarsen { start := 3, stop := 9 } 4 = { start := 0, stop := 3 } ∧
    ((range_coarsen { start := 3, stop := 9 } 4).start ≤ index_coarsen 8 4 ∧
      index_coarsen 8 4 < (range_coarsen { start := 3, stop := 9 } 4).stop) ∧
    (range_coarsen { start := 3, stop := 9 } 4).start <
      (range_coarsen { start := 3, stop := 9 } 4).stop :=
  claim_C6 { start := 3, stop := 9 } 4 8 (by decide) (by decide) (by decide) (by decide)

/-- C10: the one-step byte-to-polynomial conversion `range_byte_to_poly`
(coarsening by `payload_chunk_size * elem_byte_cap`, used by the large-range
verifier) yields the same polynomial range as the two-step conversion
`range_elem_to_poly ∘ range_byte_to_elem` (used by both provers and the
small-range verifier) — for every byte range, hence for every non-empty one;
the large-range verifier therefore resolves the same polynomial index as the
provers. -/
theorem claim_C10 (a : Advz) (r : BRange) :
    a.range_byte_to_poly r = a.range_elem_to_poly (a.range_byte_to_elem r) :=
  range_byte_to_poly_two_step a r

/-- C4: `payload_proof` (either engine) returns an argument error exactly when
the range is empty, or `range.end` exceeds the payload length, or the range
spans a number of polynomials other than one; for ranges satisfying none of
these conditions no argument error arises from these checks (the collaborator
`multi_open` is total in this model, the spec keeping its errors out of
scope). -/
theorem claim_C4 (a : Advz) (payload : List Nat) (r : BRange) :
    ((a.payload_proof_small payload r = Except.error ()) ↔
      (r.isEmpty = true ∨ payload.length < r.stop ∨
        (a.range_elem_to_poly (a.range_byte_to_elem r)).len ≠ 1)) ∧
    ((a.payload_proof_large payload r = Except.error ()) ↔
      (r.isEmpty = true ∨ payload.length < r.stop ∨
        (a.range_elem_to_poly (a.range_byte_to_elem r)).len ≠ 1)) := by
  by_cases h1 : r.isEmpty = true
  · simp [Advz.payload_proof_small, Advz.payload_proof_large,
      check_range_nonempty_and_inside_payload, h1]
  · by_cases h2 : payload.length < r.stop
    · simp [Advz.payload_proof_small, Advz.payload_proof_large,
        check_range_nonempty_and_inside_payload, h1, h2]
    · by_cases h3 : (a.range_elem_to_poly (a.range_byte_to_elem r)).len ≠ 1
      · simp [Advz.payload_proof_small, Advz.payload_proof_large,
          check_range_nonempty_and_inside_payload, check_range_poly, h1, h2, h3]
      · simp [Advz.payload_proof_small, Advz.payload_proof_large,
          check_range_nonempty_and_inside_payload, check_range_poly, h1, h2, h3]

/-- C5: every `payload_verify` call (both engines) runs the three validator
checks first, in order — statement/proof consistency, then the
polynomial-span check, then common/commit fingerprint consistency — and any
of them failing yields an argument error (so no cryptographic verification
outcome, panic included, is reached). The ordering shows in the hypothesis
shape: a later check matters only when the earlier ones returned `Ok`. -/
theorem claim_C5 (a : Advz) (stmt : Statement) (pS : SmallRangeProof) (pL : LargeRangeProof)
    (hS : check_stmt_proof_consistency stmt pS.chunk_range = Except.error () ∨
      (check_stmt_proof_consistency stmt pS.chunk_range = Except.ok () ∧
        check_range_poly (a.range_elem_to_poly (a.range_byte_to_elem pS.chunk_range)) =
          Except.error ()) ∨
      (check_stmt_proof_consistency stmt pS.chunk_range = Except.ok () ∧
        check_range_poly (a.range_elem_to_poly (a.range_byte_to_elem pS.chunk_range)) =
          Except.ok () ∧
        a.check_common_commit_consistency stmt.common stmt.commit = Except.error ()))
    (hL : check_stmt_proof_consistency stmt pL.chunk_range = Except.error () ∨
      (check_stmt_proof_consistency stmt pL.chunk_range = Except.ok () ∧
        check_range_poly (a.range_byte_to_poly pL.chunk_range) = Except.error ()) ∨
      (check_stmt_proof_consistency stmt pL.chunk_range = Except.ok () ∧
        check_range_poly (a.range_byte_to_poly pL.chunk_range) = Except.ok () ∧
        a.check_common_commit_consistency stmt.common stmt.commit = Except.error ())) :
    a.payload_verify_small stmt pS = VResult.argErr ∧
    a.payload_verify_large stmt pL = VResult.argErr := by
  constructor
  · rcases hS with h | ⟨h1, h2⟩ | ⟨h1, h2, h3⟩
    · simp [Advz.payload_verify_small, h]
    · simp [Advz.payload_verify_small, h1, h2]
    · simp [Advz.payload_verify_small, h1, h2, h3]
  · rcases hL with h | ⟨h1, h2⟩ | ⟨h1, h2, h3⟩
    · simp [Advz.payload_verify_large, h]
    · simp [Advz.payload_verify_large, h1, h2]
    · simp [Advz.payload_verify_large, h1, h2, h3]

/-- Witness for C5: a statement with an empty range fails the first check and
both verifiers reject it with an argument error. -/
theorem claim_C5_witness :
    advzA.payload_verify_small stmtEmpty proofX = VResult.argErr ∧
    advzA.payload_verify_large stmtEmpty proofY = VResult.argErr :=
  claim_C5 advzA stmtEmpty proofX proofY (Or.inl (by decide)) (Or.inl (by decide))

/-- C7: in all four entry points, once the preceding check has passed, a
polynomial range of length other than one is rejected with the argument-error
outcome — never the `panics` outcome (the model's rendering of a Rust
panic), and never a verification outcome. -/
theorem claim_C7 (a : Advz) (payload : List Nat) (stmt : Statement)
    (pS : SmallRangeProof) (pL : LargeRangeProof) (r : BRange)
    (hS : pS.chunk_range = r) (hL : pL.chunk_range = r)
    (hvalid : check_range_nonempty_and_inside_payload payload r = Except.ok ())
    (hstmt : check_stmt_proof_consistency stmt r = Except.ok ())
    (hspan : (a.range_elem_to_poly (a.range_byte_to_elem r)).len ≠ 1) :
    a.payload_proof_small payload r = Except.error () ∧
    a.payload_proof_large payload r = Except.error () ∧
    a.payload_verify_small stmt pS = VResult.argErr ∧
    a.payload_verify_large stmt pL = VResult.argErr := by
  subst hS
  refine ⟨?_, ?_, ?_, ?_⟩
  · simp [Advz.payload_proof_small, hvalid, check_range_poly, hspan]
  · simp [Advz.payload_proof_large, hvalid, check_range_poly, hspan]
  · simp [Advz.payload_verify_small, hstmt, check_range_poly, hspan]
  · have hspan2 : (a.range_byte_to_poly pS.chunk_range).len ≠ 1 := by
      rw [range_byte_to_poly_two_step]
      exact hspan
    simp [Advz.payload_verify_large, hL, hstmt, check_range_poly, hspan2]

/-- Witness for C7 at the range `[0, 17)`, which spans polynomials 0 and 1 of
the 20-byte payload. -/
theorem claim_C7_witness :
    advzA.payload_proof_small payloadA rangeSpan = Except.error () ∧
    advzA.payload_proof_large payloadA rangeSpan = Except.error () ∧
    advzA.payload_verify_small stmtSpan proofSpanS = VResult.argErr ∧
    advzA.payload_verify_large stmtSpan proofSpanL = VResult.argErr :=
  claim_C7 advzA payloadA stmtSpan proofSpanS proofSpanL rangeSpan
    (by decide) (by decide) (by decide) (by decide) (by decide)

/-- C8: for every payload and valid in-bounds single-polynomial range, the
proof returned by `payload_proof` (either engine) carries `chunk_range` equal
to the requested range, `prefix_bytes` equal to the payload bytes from the
first byte of the first touched element (element `start / c`, byte
`(start / c) * c`) up to `range.start`, and `suffix_bytes` equal to the
payload bytes from `range.end` up to the end byte of the last touched element
(`((end - 1) / c + 1) * c`), clamped to the payload length. -/
theorem claim_C8 (a : Advz) (payload : List Nat) (r : BRange)
    (hne : r.start < r.stop) (hin : r.stop ≤ payload.length)
    (hspan : (a.range_elem_to_poly (a.range_byte_to_elem r)).len = 1) :
    (a.payload_proof_small payload r).map SmallRangeProof.chunk_range = Except.ok r ∧
    (a.payload_proof_small payload r).map SmallRangeProof.prefix_bytes =
      Except.ok (sliceBytes payload (r.start / a.elem_byte_cap * a.elem_byte_cap) r.start) ∧
    (a.payload_proof_small payload r).map SmallRangeProof.suffix_bytes =
      Except.ok (sliceBytes payload r.stop
        (min (((r.stop - 1) / a.elem_byte_cap + 1) * a.elem_byte_cap) payload.length)) ∧
    (a.payload_proof_large payload r).map LargeRangeProof.chunk_range = Except.ok r ∧
    (a.payload_proof_large payload r).map LargeRangeProof.prefix_bytes =
      Except.ok (sliceBytes payload (r.start / a.elem_byte_cap * a.elem_byte_cap) r.start) ∧
    (a.payload_proof_large payload r).map LargeRangeProof.suffix_bytes =
      Except.ok (sliceBytes payload r.stop
        (min (((r.stop - 1) / a.elem_byte_cap + 1) * a.elem_byte_cap) payload.length)) := by
  have e1 : r.isEmpty = false := by
    simp only [BRange.isEmpty, decide_eq_false_iff_not]
    omega
  have e2 : ¬(payload.length < r.stop) := by omega
  have h1 : check_range_nonempty_and_inside_payload payload r = Except.ok () := by
    simp [check_range_nonempty_and_inside_payload, e1, e2]
  have h2 : check_range_poly (a.range_elem_to_poly (a.range_byte_to_elem r)) =
      Except.ok () := by
    simp [check_range_poly, hspan]
  refine ⟨?_, ?_, ?_, ?_, ?_, ?_⟩ <;>
  · simp only [Advz.payload_proof_small, Advz.payload_proof_large, h1, h2]
    simp [Advz.range_elem_to_byte_clamped, Advz.range_elem_to_byte, Advz.range_byte_to_elem,
      range_refine, range_coarsen, index_refine, index_coarsen, Except.map]

/-- Witness for C8 at the payload `payloadA` and range `[1, 3)` (touching only
element 0, whose byte span is `[0, 4)`). -/
theorem claim_C8_witness :
    (advzA.payload_proof_small payloadA rangeA).map SmallRangeProof.chunk_range =
      Except.ok rangeA ∧
    (advzA.payload_proof_small payloadA rangeA).map SmallRangeProof.prefix_bytes =
      Except.ok (sliceBytes payloadA
        (rangeA.start / advzA.elem_byte_cap * advzA.elem_byte_cap) rangeA.start) ∧
    (advzA.payload_proof_small payloadA rangeA).map SmallRangeProof.suffix_bytes =
      Except.ok (sliceBytes payloadA rangeA.stop
        (min (((rangeA.stop - 1) / advzA.elem_byte_cap + 1) * advzA.elem_byte_cap)
          payloadA.length)) ∧
    (advzA.payload_proof_large payloadA rangeA).map LargeRangeProof.chunk_range =
      Except.ok rangeA ∧
    (advzA.payload_proof_large payloadA rangeA).map LargeRangeProof.prefix_bytes =
      Except.ok (sliceBytes payloadA
        (rangeA.start / advzA.elem_byte_cap * advzA.elem_byte_cap) rangeA.start) ∧
    (advzA.payload_proof_large payloadA rangeA).map LargeRangeProof.suffix_bytes =
      Except.ok (sliceBytes payloadA rangeA.stop
        (min (((rangeA.stop - 1) / advzA.elem_byte_cap + 1) * advzA.elem_byte_cap)
          payloadA.length)) :=
  claim_C8 advzA payloadA rangeA (by decide) (by decide) (by decide)

/-- C3: once the three precondition checks have passed and — as the claim's
reference to `common.poly_commits[range_poly.start]` presupposes — that index
is in bounds, the large-range verifier rebuilds the polynomial as
`prefix_elems ++ bytes_to_field(prefix_bytes ++ payload_subslice ++ suffix_bytes)
++ suffix_elems`, recommits it with the `commit` collaborator, and returns the
inner failure exactly when that commitment differs from the stored one,
success when they are equal; its definition never consults the
opening/pairing collaborator `kzgVerify`. -/
theorem claim_C3 (a : Advz) (stmt : Statement) (pf : LargeRangeProof)
    (h1 : check_stmt_proof_consistency stmt pf.chunk_range = Except.ok ())
    (h2 : check_range_poly (a.range_byte_to_poly pf.chunk_range) = Except.ok ())
    (h3 : a.check_common_commit_consistency stmt.common stmt.commit = Except.ok ())
    (h4 : (a.range_byte_to_poly pf.chunk_range).start < stmt.common.length) :
    a.payload_verify_large stmt pf =
      (if a.commit (pf.prefix_elems ++
          bytesToField a.elem_byte_cap
            (pf.prefix_bytes ++ stmt.payload_subslice ++ pf.suffix_bytes) ++
          pf.suffix_elems) =
          stmt.common.getD (a.range_byte_to_poly pf.chunk_range).start 0
        then VResult.vok else VResult.vfail) := by
  have h5 : ¬(stmt.common.length ≤ (a.range_byte_to_poly pf.chunk_range).start) :=
    Nat.not_le.mpr h4
  by_cases heq : a.commit (pf.prefix_elems ++
      bytesToField a.elem_byte_cap
        (pf.prefix_bytes ++ stmt.payload_subslice ++ pf.suffix_bytes) ++
      pf.suffix_elems) =
      stmt.common.getD (a.range_byte_to_poly pf.chunk_range).start 0
  · simp [Advz.payload_verify_large, h1, h2, h3, h5, heq]
  · simp [Advz.payload_verify_large, h1, h2, h3, h5, heq]

/-- Witness for C3 at `stmtY`/`proofY` (a consistent statement over a
one-polynomial commitment list; the rebuilt commitment does not match, so the
verifier reports the inner failure). -/
theorem claim_C3_witness :
    advzA.payload_verify_large stmtY proofY =
      (if advzA.commit (proofY.prefix_elems ++
          bytesToField advzA.elem_byte_cap
            (proofY.prefix_bytes ++ stmtY.payload_subslice ++ proofY.suffix_bytes) ++
          proofY.suffix_elems) =
          stmtY.common.getD (advzA.range_byte_to_poly proofY.chunk_range).start 0
        then VResult.vok else VResult.vfail) :=
  claim_C3 advzA stmtY proofY (by decide) (by decide) (by decide) (by decide)

/-- C9 is refuted by the code: at the concrete adversarial input
`stmtX`/`proofX` the statement/proof-consistency, polynomial-span,
commit-consistency and element-count-equals-proof-count checks all pass
(the 8 junk prefix bytes inflate the reconstructed element count to 3,
matched by 3 junk opening proofs), yet the element count differs from the
point count (3 vs 1), so `assert_eq!(data_elems.len(), points.len())` fails
and `payload_verify` panics — the `panics` outcome of the model. -/
theorem claim_C9 :
    check_stmt_proof_consistency stmtX proofX.chunk_range = Except.ok () ∧
    check_range_poly (advzA.range_elem_to_poly (advzA.range_byte_to_elem proofX.chunk_range)) =
      Except.ok () ∧
    advzA.check_common_commit_consistency stmtX.common stmtX.commit = Except.ok () ∧
    (bytesToField advzA.elem_byte_cap
        (proofX.prefix_bytes ++ stmtX.payload_subslice ++ proofX.suffix_bytes)).length =
      proofX.proofs.length ∧
    advzA.payload_verify_small stmtX proofX = VResult.panics := by
  decide

/-- C2 counterexample: at `stmtX`/`proofX` the three precondition checks pass
and the reconstructed element count equals the proof's opening-proof count
(3 = 3), so by the claim the call should return `Ok(Ok(()))` or `Ok(Err(()))`
as decided by the per-point opening checks — but it does neither: it panics. -/
theorem claim_C2_cex :
    check_stmt_proof_consistency stmtX proofX.chunk_range = Except.ok () ∧
    check_range_poly (advzA.range_elem_to_poly (advzA.range_byte_to_elem proofX.chunk_range)) =
      Except.ok () ∧
    advzA.check_common_commit_consistency stmtX.common stmtX.commit = Except.ok () ∧
    (bytesToField advzA.elem_byte_cap
        (proofX.prefix_bytes ++ stmtX.payload_subslice ++ proofX.suffix_bytes)).length =
      proofX.proofs.length ∧
    advzA.payload_verify_small stmtX proofX ≠ VResult.vok ∧
    advzA.payload_verify_small stmtX proofX ≠ VResult.vfail ∧
    advzA.payload_verify_small stmtX proofX ≠ VResult.argErr := by
  decide

/-- C2 (amended): in small-range `payload_verify`, after the precondition
checks pass and with `range_poly.start` in bounds for `common.poly_commits`
(as the claim's indexing presupposes): if the number of reconstructed field
elements differs from the number of opening proofs, the call returns an
argument error; otherwise, if that count differs from the number of
evaluation points, the call panics at the sanity assertion; otherwise each
opening proof is checked individually against
`common.poly_commits[range_poly.start]` at its point, and the call returns
`Ok(Err(()))` as soon as one point's opening check returns false and
`Ok(Ok(()))` if and only if every point's opening check succeeds. -/
theorem claim_C2 (a : Advz) (stmt : Statement) (pf : SmallRangeProof)
    (h1 : check_stmt_proof_consistency stmt pf.chunk_range = Except.ok ())
    (h2 : check_range_poly (a.range_elem_to_poly (a.range_byte_to_elem pf.chunk_range)) =
      Except.ok ())
    (h3 : a.check_common_commit_consistency stmt.common stmt.commit = Except.ok ())
    (h4 : (a.range_elem_to_poly (a.range_byte_to_elem pf.chunk_range)).start <
      stmt.common.length) :
    a.payload_verify_small stmt pf =
      (let range_elem := a.range_byte_to_elem pf.chunk_range
       let range_poly := a.range_elem_to_poly range_elem
       let offset_elem := range_elem.start -
         a.index_byte_to_elem (a.index_poly_to_byte range_poly.start)
       let data_elems := bytesToField a.elem_byte_cap
         (pf.prefix_bytes ++ stmt.payload_subslice ++ pf.suffix_bytes)
       let points := a.inputPoints offset_elem range_elem.len
       if data_elems.length ≠ pf.proofs.length then VResult.argErr
       else if data_elems.length ≠ points.length then VResult.panics
       else if (points.zip (data_elems.zip pf.proofs)).all
           (fun x => a.kzgVerify (stmt.common.getD range_poly.start 0) x.1 x.2.1 x.2.2)
         then VResult.vok else VResult.vfail) := by
  have h5 : ¬(stmt.common.length ≤
      (a.range_elem_to_poly (a.range_byte_to_elem pf.chunk_range)).start) :=
    Nat.not_le.mpr h4
  simp only [Advz.payload_verify_small, h1, h2, h3]
  split_ifs <;> rfl

/-- Witness for the amended C2 at `stmtY`/`proofZ` (an honest-shaped proof:
both counts are 1, so the per-point loop decides the outcome). -/
theorem claim_C2_witness :
    advzA.payload_verify_small stmtY proofZ =
      (let range_elem := advzA.range_byte_to_elem proofZ.chunk_range
       let range_poly := advzA.range_elem_to_poly range_elem
       let offset_elem := range_elem.start -
         advzA.index_byte_to_elem (advzA.index_poly_to_byte range_poly.start)
       let data_elems := bytesToField advzA.elem_byte_cap
         (proofZ.prefix_bytes ++ stmtY.payload_subslice ++ proofZ.suffix_bytes)
       let points := advzA.inputPoints offset_elem range_elem.len
       if data_elems.length ≠ proofZ.proofs.length then VResult.argErr
       else if data_elems.length ≠ points.length then VResult.panics
       else if (points.zip (data_elems.zip proofZ.proofs)).all
           (fun x => advzA.kzgVerify (stmtY.common.getD range_poly.start 0) x.1 x.2.1 x.2.2)
         then VResult.vok else VResult.vfail) :=
  claim_C2 advzA stmtY proofZ (by decide) (by decide) (by decide) (by decide)

/-! ## Arithmetic facts for the round-trip theorem -/

theorem lt_div_succ_mul (x c : Nat) (hc : 0 < c) : x < (x / c + 1) * c := by
  have h := Nat.div_add_mod x c
  have h2 := Nat.mod_lt x hc
  have h3 : (x / c + 1) * c = x / c * c + c := Nat.succ_mul _ _
  have h4 : c * (x / c) = x / c * c := Nat.mul_comm _ _
  omega

theorem stop_le_elem_end (c stop : Nat) (hc : 0 < c) :
    stop ≤ ((stop - 1) / c + 1) * c := by
  have h := lt_div_succ_mul (stop - 1) c hc
  omega

theorem elem_end_le_total (c n stop : Nat) (hc : 0 < c) (hpos : 0 < stop) (hin : stop ≤ n) :
    (stop - 1) / c + 1 ≤ (n + c - 1) / c := by
  rw [ceil_div_pos c n hc (by omega)]
  have h := Nat.div_le_div_right (c := c) (show stop - 1 ≤ n - 1 by omega)
  omega

theorem elem_start_lt_total (c n start stop : Nat) (hc : 0 < c)
    (hne : start < stop) (hin : stop ≤ n) : start / c < (n + c - 1) / c := by
  have h1 := elem_end_le_total c n stop hc (by omega) hin
  have h2 := Nat.div_le_div_right (c := c) (show start ≤ stop - 1 by omega)
  omega

theorem poly_lt_num_polys (cs x y : Nat) (hcs : 0 < cs) (hxy : x < y) :
    x / cs < (y + cs - 1) / cs := by
  rw [ceil_div_pos cs y hcs (by omega)]
  have h := Nat.div_le_div_right (c := cs) (show x ≤ y - 1 by omega)
  omega

/-- The three byte buffers a verifier concatenates (honest prover's
`prefix_bytes`, the honest subslice, honest `suffix_bytes`) re-pack to
exactly the touched field elements of the payload. -/
theorem data_elems_eq (c : Nat) (payload : List Nat) (start stop : Nat)
    (hc : 0 < c) (hne : start < stop) (hin : stop ≤ payload.length) :
    bytesToField c
      (sliceBytes payload (start / c * c) start ++ sliceBytes payload start stop ++
        sliceBytes payload stop (min (((stop - 1) / c + 1) * c) payload.length)) =
    ((bytesToField c payload).drop (start / c)).take ((stop - 1) / c + 1 - start / c) := by
  have ha1 : start / c * c ≤ start := Nat.div_mul_le_self start c
  have ha2 : stop ≤ ((stop - 1) / c + 1) * c := stop_le_elem_end c stop hc
  have g1 : sliceBytes payload (start / c * c) start ++ sliceBytes payload start stop =
      sliceBytes payload (start / c * c) stop :=
    sliceBytes_append payload _ _ _ ha1 (le_of_lt hne)
  have g2 : sliceBytes payload (start / c * c) stop ++
      sliceBytes payload stop (min (((stop - 1) / c + 1) * c) payload.length) =
      sliceBytes payload (start / c * c) (min (((stop - 1) / c + 1) * c) payload.length) :=
    sliceBytes_append payload _ _ _ (by omega) (le_min ha2 hin)
  rw [g1, g2]
  have hse : start / c ≤ (stop - 1) / c :=
    Nat.div_le_div_right (by omega)
  have hscec : start / c * c ≤ ((stop - 1) / c + 1) * c :=
    Nat.mul_le_mul_right c (by omega)
  have hsubmul : ((stop - 1) / c + 1 - start / c) * c =
      ((stop - 1) / c + 1) * c - start / c * c := Nat.sub_mul _ _ _
  have g3 : sliceBytes payload (start / c * c) (min (((stop - 1) / c + 1) * c) payload.length) =
      (payload.drop (start / c * c)).take (((stop - 1) / c + 1 - start / c) * c) := by
    unfold sliceBytes
    rw [List.take_eq_take]
    rw [List.length_drop]
    omega
  rw [g3, ← bytesToField_take c _ _ hc, bytesToField_drop c _ _ hc]

/-- Splitting a list at `o` and `o + k` and reconcatenating restores it. -/
theorem take_mid_drop (P : List Nat) (o k : Nat) :
    P.take o ++ (P.drop o).take k ++ (P.drop o).drop k = P := by
  rw [List.append_assoc, List.take_append_drop, List.take_append_drop]

/-- `common.poly_commits` produced by `disperse`: its length. -/
theorem disperse_common_length (a : Advz) (payload : List Nat) :
    (a.disperse payload).2.length =
      ((bytesToField a.elem_byte_cap payload).length + a.payload_chunk_size - 1) /
        a.payload_chunk_size := by
  simp [Advz.disperse]

/-- `common.poly_commits` produced by `disperse`: its `j`-th entry is the
commitment of the `j`-th chunk of the payload's element list. -/
theorem disperse_common_getD (a : Advz) (payload : List Nat) (j : Nat)
    (h : j < ((bytesToField a.elem_byte_cap payload).length + a.payload_chunk_size - 1) /
      a.payload_chunk_size) :
    (a.disperse payload).2.getD j 0 =
      a.commit (((bytesToField a.elem_byte_cap payload).drop (j * a.payload_chunk_size)).take
        a.payload_chunk_size) := by
  simp only [Advz.disperse]
  exact getD_map_range _ _ _ h

/-- Round trip of the large-range engine on an honest statement. -/
theorem roundtrip_large_aux (a : Advz) (payload : List Nat) (r : BRange)
    (hc : 0 < a.elem_byte_cap) (hcs : 0 < a.payload_chunk_size)
    (hne : r.start < r.stop) (hin : r.stop ≤ payload.length)
    (hspan : (a.range_elem_to_poly (a.range_byte_to_elem r)).len = 1) :
    (a.payload_proof_large payload r).map
      (fun pf => a.payload_verify_large (a.honestStatement payload r) pf) =
    Except.ok VResult.vok := by
  have e1 : r.isEmpty = false := by
    simp only [BRange.isEmpty, decide_eq_false_iff_not]
    omega
  have e2 : ¬(payload.length < r.stop) := by omega
  have h1 : check_range_nonempty_and_inside_payload payload r = Except.ok () := by
    simp [check_range_nonempty_and_inside_payload, e1, e2]
  have h2 : check_range_poly (a.range_elem_to_poly (a.range_byte_to_elem r)) =
      Except.ok () := by
    simp [check_range_poly, hspan]
  have hsub : (sliceBytes payload r.start r.stop).length = r.stop - r.start := by
    rw [sliceBytes_length]
    omega
  have hstmt : check_stmt_proof_consistency (a.honestStatement payload r) r =
      Except.ok () := by
    simp [check_stmt_proof_consistency, Advz.honestStatement, e1, hsub, BRange.len]
  have hcc : a.check_common_commit_consistency (a.honestStatement payload r).common
      (a.honestStatement payload r).commit = Except.ok () := by
    simp [Advz.check_common_commit_consistency, Advz.honestStatement, Advz.disperse]
  have h2L : check_range_poly (a.range_byte_to_poly r) = Except.ok () := by
    rw [range_byte_to_poly_two_step]
    exact h2
  simp only [Advz.payload_proof_large, h1, h2, Except.map]
  simp only [Advz.payload_verify_large, hstmt, h2L, hcc]
  have hps : (a.honestStatement payload r).payload_subslice = sliceBytes payload r.start r.stop :=
    rfl
  have hcm : (a.honestStatement payload r).common = (a.disperse payload).2 := rfl
  have hclamp_s : (a.range_elem_to_byte_clamped (a.range_byte_to_elem r) payload.length).start =
      r.start / a.elem_byte_cap * a.elem_byte_cap := rfl
  have hclamp_e : (a.range_elem_to_byte_clamped (a.range_byte_to_elem r) payload.length).stop =
      min (((r.stop - 1) / a.elem_byte_cap + 1) * a.elem_byte_cap) payload.length := rfl
  have hres : (a.range_byte_to_elem r).start = r.start / a.elem_byte_cap := rfl
  have hrel : (a.range_byte_to_elem r).len =
      (r.stop - 1) / a.elem_byte_cap + 1 - r.start / a.elem_byte_cap := rfl
  have hrps : (a.range_elem_to_poly (a.range_byte_to_elem r)).start =
      r.start / a.elem_byte_cap / a.payload_chunk_size := rfl
  have hrbps : (a.range_byte_to_poly r).start =
      r.start / a.elem_byte_cap / a.payload_chunk_size := by
    rw [range_byte_to_poly_two_step]
    exact hrps
  have hsnb : a.index_poly_to_byte (r.start / a.elem_byte_cap / a.payload_chunk_size) =
      r.start / a.elem_byte_cap / a.payload_chunk_size *
        (a.payload_chunk_size * a.elem_byte_cap) := rfl
  have hibe : a.index_byte_to_elem (r.start / a.elem_byte_cap / a.payload_chunk_size *
      (a.payload_chunk_size * a.elem_byte_cap)) =
      r.start / a.elem_byte_cap / a.payload_chunk_size * a.payload_chunk_size := by
    unfold Advz.index_byte_to_elem index_coarsen
    rw [← Nat.mul_assoc]
    exact Nat.mul_div_cancel _ hc
  have hPP : bytesToField a.elem_byte_cap (payload.drop
      (r.start / a.elem_byte_cap / a.payload_chunk_size *
        (a.payload_chunk_size * a.elem_byte_cap))) =
      (bytesToField a.elem_byte_cap payload).drop
        (r.start / a.elem_byte_cap / a.payload_chunk_size * a.payload_chunk_size) := by
    rw [← Nat.mul_assoc]
    exact bytesToField_drop _ _ _ hc
  rw [hps, hcm, hclamp_s, hclamp_e, hrps, hsnb, hibe, hres, hrel, hrbps, hPP,
    data_elems_eq a.elem_byte_cap payload r.start r.stop hc hne hin]
  have hjcs : r.start / a.elem_byte_cap / a.payload_chunk_size * a.payload_chunk_size ≤
      r.start / a.elem_byte_cap := Nat.div_mul_le_self _ _
  have hse : r.start / a.elem_byte_cap ≤ (r.stop - 1) / a.elem_byte_cap :=
    Nat.div_le_div_right (by omega)
  have hJ : (r.stop - 1) / a.elem_byte_cap / a.payload_chunk_size =
      r.start / a.elem_byte_cap / a.payload_chunk_size := by
    have hlen : (a.range_elem_to_poly (a.range_byte_to_elem r)).len =
        (r.stop - 1) / a.elem_byte_cap / a.payload_chunk_size + 1 -
          r.start / a.elem_byte_cap / a.payload_chunk_size := rfl
    have hmono : r.start / a.elem_byte_cap / a.payload_chunk_size ≤
        (r.stop - 1) / a.elem_byte_cap / a.payload_chunk_size :=
      Nat.div_le_div_right hse
    rw [hlen] at hspan
    omega
  have he_le : (r.stop - 1) / a.elem_byte_cap + 1 ≤
      r.start / a.elem_byte_cap / a.payload_chunk_size * a.payload_chunk_size +
        a.payload_chunk_size := by
    have h := lt_div_succ_mul ((r.stop - 1) / a.elem_byte_cap) a.payload_chunk_size hcs
    rw [hJ, Nat.succ_mul] at h
    omega
  have hD_P : List.take ((r.stop - 1) / a.elem_byte_cap + 1 - r.start / a.elem_byte_cap)
      (List.drop (r.start / a.elem_byte_cap -
        r.start / a.elem_byte_cap / a.payload_chunk_size * a.payload_chunk_size)
        (List.take a.payload_chunk_size
          (List.drop (r.start / a.elem_byte_cap / a.payload_chunk_size * a.payload_chunk_size)
            (bytesToField a.elem_byte_cap payload)))) =
      List.take ((r.stop - 1) / a.elem_byte_cap + 1 - r.start / a.elem_byte_cap)
        (List.drop (r.start / a.elem_byte_cap) (bytesToField a.elem_byte_cap payload)) := by
    rw [List.drop_take, List.drop_drop, List.take_take]
    congr 1
    · omega
    · congr 1
      omega
  rw [← hD_P, take_mid_drop]
  have hsL : r.start / a.elem_byte_cap <
      (payload.length + a.elem_byte_cap - 1) / a.elem_byte_cap :=
    elem_start_lt_total _ _ _ _ hc hne hin
  have hjlt : r.start / a.elem_byte_cap / a.payload_chunk_size <
      ((payload.length + a.elem_byte_cap - 1) / a.elem_byte_cap +
        a.payload_chunk_size - 1) / a.payload_chunk_size :=
    poly_lt_num_polys _ _ _ hcs hsL
  rw [disperse_common_getD a payload _ (by rw [bytesToField_length]; exact hjlt)]
  have hguard : ¬((a.disperse payload).2.length ≤
      r.start / a.elem_byte_cap / a.payload_chunk_size) := by
    rw [disperse_common_length, bytesToField_length]
    omega
  rw [if_neg hguard, if_neg (fun hne2 => hne2 rfl)]

theorem getD_take (l : List Nat) (k i : Nat) (h : i < k) :
    (l.take k).getD i 0 = l.getD i 0 := by
  by_cases hl : i < l.length
  · rw [List.getD_eq_getElem _ _ (by simp [List.length_take]; omega),
      List.getD_eq_getElem _ _ hl]
    exact List.getElem_take ..
  · rw [List.getD_eq_default _ _ (by simp [List.length_take]; omega),
      List.getD_eq_default _ _ (by omega)]

theorem getD_drop (l : List Nat) (k i : Nat) :
    (l.drop k).getD i 0 = l.getD (k + i) 0 := by
  by_cases h : k + i < l.length
  · rw [List.getD_eq_getElem _ _ (by simp [List.length_drop]; omega),
      List.getD_eq_getElem _ _ h]
    exact List.getElem_drop ..
  · rw [List.getD_eq_default _ _ (by simp [List.length_drop]; omega),
      List.getD_eq_default _ _ (by omega)]

/-- Round trip of the small-range engine on an honest statement, assuming the
out-of-scope KZG collaborators are correct: `multi_open` returns one proof
per point, and `verify` accepts an opening proof from `multi_open` against
the commitment of the same polynomial at the same point and its evaluation
(the element at that domain index). -/
theorem roundtrip_small_aux (a : Advz) (payload : List Nat) (r : BRange)
    (hc : 0 < a.elem_byte_cap) (hcs : 0 < a.payload_chunk_size)
    (hdom : a.payload_chunk_size ≤ a.domain_size)
    (hmo : ∀ p pts, (a.multiOpen p pts).length = pts.length)
    (hkzg : ∀ p pts i, i < pts.length →
      a.kzgVerify (a.commit p) (pts.getD i 0) (p.getD (pts.getD i 0) 0)
        ((a.multiOpen p pts).getD i 0) = true)
    (hne : r.start < r.stop) (hin : r.stop ≤ payload.length)
    (hspan : (a.range_elem_to_poly (a.range_byte_to_elem r)).len = 1) :
    (a.payload_proof_small payload r).map
      (fun pf => a.payload_verify_small (a.honestStatement payload r) pf) =
    Except.ok VResult.vok := by
  have e1 : r.isEmpty = false := by
    simp only [BRange.isEmpty, decide_eq_false_iff_not]
    omega
  have e2 : ¬(payload.length < r.stop) := by omega
  have h1 : check_range_nonempty_and_inside_payload payload r = Except.ok () := by
    simp [check_range_nonempty_and_inside_payload, e1, e2]
  have h2 : check_range_poly (a.range_elem_to_poly (a.range_byte_to_elem r)) =
      Except.ok () := by
    simp [check_range_poly, hspan]
  have hsub : (sliceBytes payload r.start r.stop).length = r.stop - r.start := by
    rw [sliceBytes_length]
    omega
  have hstmt : check_stmt_proof_consistency (a.honestStatement payload r) r =
      Except.ok () := by
    simp [check_stmt_proof_consistency, Advz.honestStatement, e1, hsub, BRange.len]
  have hcc : a.check_common_commit_consistency (a.honestStatement payload r).common
      (a.honestStatement payload r).commit = Except.ok () := by
    simp [Advz.check_common_commit_consistency, Advz.honestStatement, Advz.disperse]
  simp only [Advz.payload_proof_small, h1, h2, Except.map]
  simp only [Advz.payload_verify_small, hstmt, h2, hcc]
  have hps : (a.honestStatement payload r).payload_subslice = sliceBytes payload r.start r.stop :=
    rfl
  have hcm : (a.honestStatement payload r).common = (a.disperse payload).2 := rfl
  have hclamp_s : (a.range_elem_to_byte_clamped (a.range_byte_to_elem r) payload.length).start =
      r.start / a.elem_byte_cap * a.elem_byte_cap := rfl
  have hclamp_e : (a.range_elem_to_byte_clamped (a.range_byte_to_elem r) payload.length).stop =
      min (((r.stop - 1) / a.elem_byte_cap + 1) * a.elem_byte_cap) payload.length := rfl
  have hres : (a.range_byte_to_elem r).start = r.start / a.elem_byte_cap := rfl
  have hrel : (a.range_byte_to_elem r).len =
      (r.stop - 1) / a.elem_byte_cap + 1 - r.start / a.elem_byte_cap := rfl
  have hrps : (a.range_elem_to_poly (a.range_byte_to_elem r)).start =
      r.start / a.elem_byte_cap / a.payload_chunk_size := rfl
  have hsnb : a.index_poly_to_byte (r.start / a.elem_byte_cap / a.payload_chunk_size) =
      r.start / a.elem_byte_cap / a.payload_chunk_size *
        (a.payload_chunk_size * a.elem_byte_cap) := rfl
  have hibe : a.index_byte_to_elem (r.start / a.elem_byte_cap / a.payload_chunk_size *
      (a.payload_chunk_size * a.elem_byte_cap)) =
      r.start / a.elem_byte_cap / a.payload_chunk_size * a.payload_chunk_size := by
    unfold Advz.index_byte_to_elem index_coarsen
    rw [← Nat.mul_assoc]
    exact Nat.mul_div_cancel _ hc
  have hrpoly : a.rangePolynomial payload
      (r.start / a.elem_byte_cap / a.payload_chunk_size *
        (a.payload_chunk_size * a.elem_byte_cap)) =
      List.take a.payload_chunk_size
        (List.drop (r.start / a.elem_byte_cap / a.payload_chunk_size * a.payload_chunk_size)
          (bytesToField a.elem_byte_cap payload)) := by
    unfold Advz.rangePolynomial
    rw [← Nat.mul_assoc, bytesToField_drop _ _ _ hc]
  rw [hps, hcm, hclamp_s, hclamp_e, hrps, hsnb, hibe, hres, hrel, hrpoly,
    data_elems_eq a.elem_byte_cap payload r.start r.stop hc hne hin]
  have hjcs : r.start / a.elem_byte_cap / a.payload_chunk_size * a.payload_chunk_size ≤
      r.start / a.elem_byte_cap := Nat.div_mul_le_self _ _
  have hse : r.start / a.elem_byte_cap ≤ (r.stop - 1) / a.elem_byte_cap :=
    Nat.div_le_div_right (by omega)
  have hJ : (r.stop - 1) / a.elem_byte_cap / a.payload_chunk_size =
      r.start / a.elem_byte_cap / a.payload_chunk_size := by
    have hlen : (a.range_elem_to_poly (a.range_byte_to_elem r)).len =
        (r.stop - 1) / a.elem_byte_cap / a.payload_chunk_size + 1 -
          r.start / a.elem_byte_cap / a.payload_chunk_size := rfl
    have hmono : r.start / a.elem_byte_cap / a.payload_chunk_size ≤
        (r.stop - 1) / a.elem_byte_cap / a.payload_chunk_size :=
      Nat.div_le_div_right hse
    rw [hlen] at hspan
    omega
  have he_le : (r.stop - 1) / a.elem_byte_cap + 1 ≤
      r.start / a.elem_byte_cap / a.payload_chunk_size * a.payload_chunk_size +
        a.payload_chunk_size := by
    have h := lt_div_succ_mul ((r.stop - 1) / a.elem_byte_cap) a.payload_chunk_size hcs
    rw [hJ, Nat.succ_mul] at h
    omega
  have heL : (r.stop - 1) / a.elem_byte_cap + 1 ≤
      (payload.length + a.elem_byte_cap - 1) / a.elem_byte_cap :=
    elem_end_le_total a.elem_byte_cap payload.length r.stop hc (by omega) hin
  have hpoints : a.inputPoints
      (r.start / a.elem_byte_cap -
        r.start / a.elem_byte_cap / a.payload_chunk_size * a.payload_chunk_size)
      ((r.stop - 1) / a.elem_byte_cap + 1 - r.start / a.elem_byte_cap) =
      List.range'
        (r.start / a.elem_byte_cap -
          r.start / a.elem_byte_cap / a.payload_chunk_size * a.payload_chunk_size)
        ((r.stop - 1) / a.elem_byte_cap + 1 - r.start / a.elem_byte_cap) :=
    inputPoints_eq_range' a _ _ (by omega)
  rw [hpoints]
  have hdlen : (List.take ((r.stop - 1) / a.elem_byte_cap + 1 - r.start / a.elem_byte_cap)
      (List.drop (r.start / a.elem_byte_cap) (bytesToField a.elem_byte_cap payload))).length =
      (r.stop - 1) / a.elem_byte_cap + 1 - r.start / a.elem_byte_cap := by
    simp only [List.length_take, List.length_drop, bytesToField_length]
    omega
  have hplen : (List.range'
      (r.start / a.elem_byte_cap -
        r.start / a.elem_byte_cap / a.payload_chunk_size * a.payload_chunk_size)
      ((r.stop - 1) / a.elem_byte_cap + 1 - r.start / a.elem_byte_cap)).length =
      (r.stop - 1) / a.elem_byte_cap + 1 - r.start / a.elem_byte_cap :=
    List.length_range' ..
  have hlen_eq2 : (List.take ((r.stop - 1) / a.elem_byte_cap + 1 - r.start / a.elem_byte_cap)
      (List.drop (r.start / a.elem_byte_cap) (bytesToField a.elem_byte_cap payload))).length =
      (List.range'
        (r.start / a.elem_byte_cap -
          r.start / a.elem_byte_cap / a.payload_chunk_size * a.payload_chunk_size)
        ((r.stop - 1) / a.elem_byte_cap + 1 - r.start / a.elem_byte_cap)).length := by
    rw [hdlen, hplen]
  have hlen_eq1 : (List.take ((r.stop - 1) / a.elem_byte_cap + 1 - r.start / a.elem_byte_cap)
      (List.drop (r.start / a.elem_byte_cap) (bytesToField a.elem_byte_cap payload))).length =
      (a.multiOpen
        (List.take a.payload_chunk_size
          (List.drop (r.start / a.elem_byte_cap / a.payload_chunk_size * a.payload_chunk_size)
            (bytesToField a.elem_byte_cap payload)))
        (List.range'
          (r.start / a.elem_byte_cap -
            r.start / a.elem_byte_cap / a.payload_chunk_size * a.payload_chunk_size)
          ((r.stop - 1) / a.elem_byte_cap + 1 - r.start / a.elem_byte_cap))).length := by
    rw [hmo, hdlen, hplen]
  have hsL : r.start / a.elem_byte_cap <
      (payload.length + a.elem_byte_cap - 1) / a.elem_byte_cap :=
    elem_start_lt_total _ _ _ _ hc hne hin
  have hjlt : r.start / a.elem_byte_cap / a.payload_chunk_size <
      ((payload.length + a.elem_byte_cap - 1) / a.elem_byte_cap +
        a.payload_chunk_size - 1) / a.payload_chunk_size :=
    poly_lt_num_polys _ _ _ hcs hsL
  rw [disperse_common_getD a payload _ (by rw [bytesToField_length]; exact hjlt)]
  have hguard : ¬((a.disperse payload).2.length ≤
      r.start / a.elem_byte_cap / a.payload_chunk_size) := by
    rw [disperse_common_length, bytesToField_length]
    omega
  have hall : ((List.range'
      (r.start / a.elem_byte_cap -
        r.start / a.elem_byte_cap / a.payload_chunk_size * a.payload_chunk_size)
      ((r.stop - 1) / a.elem_byte_cap + 1 - r.start / a.elem_byte_cap)).zip
        ((List.take ((r.stop - 1) / a.elem_byte_cap + 1 - r.start / a.elem_byte_cap)
          (List.drop (r.start / a.elem_byte_cap) (bytesToField a.elem_byte_cap payload))).zip
          (a.multiOpen
            (List.take a.payload_chunk_size
              (List.drop
                (r.start / a.elem_byte_cap / a.payload_chunk_size * a.payload_chunk_size)
                (bytesToField a.elem_byte_cap payload)))
            (List.range'
              (r.start / a.elem_byte_cap -
                r.start / a.elem_byte_cap / a.payload_chunk_size * a.payload_chunk_size)
              ((r.stop - 1) / a.elem_byte_cap + 1 - r.start / a.elem_byte_cap))))).all
      (fun x => a.kzgVerify
        (a.commit (List.take a.payload_chunk_size
          (List.drop (r.start / a.elem_byte_cap / a.payload_chunk_size * a.payload_chunk_size)
            (bytesToField a.elem_byte_cap payload))))
        x.1 x.2.1 x.2.2) = true := by
    apply all_zip3
    intro i hi1 hi2 hi3
    dsimp only
    have hilen : i < (r.stop - 1) / a.elem_byte_cap + 1 - r.start / a.elem_byte_cap := by
      rw [hplen] at hi1
      exact hi1
    have hptsi : i < (List.range'
        (r.start / a.elem_byte_cap -
          r.start / a.elem_byte_cap / a.payload_chunk_size * a.payload_chunk_size)
        ((r.stop - 1) / a.elem_byte_cap + 1 - r.start / a.elem_byte_cap)).length := hi1
    rw [← List.getD_eq_getElem _ 0 hi1, ← List.getD_eq_getElem _ 0 hi2,
      ← List.getD_eq_getElem _ 0 hi3]
    have hpt : (List.range'
        (r.start / a.elem_byte_cap -
          r.start / a.elem_byte_cap / a.payload_chunk_size * a.payload_chunk_size)
        ((r.stop - 1) / a.elem_byte_cap + 1 - r.start / a.elem_byte_cap)).getD i 0 =
        r.start / a.elem_byte_cap -
          r.start / a.elem_byte_cap / a.payload_chunk_size * a.payload_chunk_size + i := by
      rw [List.getD_eq_getElem _ 0 hptsi]
      simp [List.getElem_range']
    have hdi : (List.take ((r.stop - 1) / a.elem_byte_cap + 1 - r.start / a.elem_byte_cap)
        (List.drop (r.start / a.elem_byte_cap) (bytesToField a.elem_byte_cap payload))).getD i 0 =
        (List.take a.payload_chunk_size
          (List.drop (r.start / a.elem_byte_cap / a.payload_chunk_size * a.payload_chunk_size)
            (bytesToField a.elem_byte_cap payload))).getD
          (r.start / a.elem_byte_cap -
            r.start / a.elem_byte_cap / a.payload_chunk_size * a.payload_chunk_size + i) 0 := by
      rw [getD_take _ _ _ hilen, getD_drop,
        getD_take _ _ _ (by omega), getD_drop]
      congr 1
      omega
    have hdi2 : (List.take ((r.stop - 1) / a.elem_byte_cap + 1 - r.start / a.elem_byte_cap)
        (List.drop (r.start / a.elem_byte_cap) (bytesToField a.elem_byte_cap payload))).getD i 0 =
        (List.take a.payload_chunk_size
          (List.drop (r.start / a.elem_byte_cap / a.payload_chunk_size * a.payload_chunk_size)
            (bytesToField a.elem_byte_cap payload))).getD
          ((List.range'
            (r.start / a.elem_byte_cap -
              r.start / a.elem_byte_cap / a.payload_chunk_size * a.payload_chunk_size)
            ((r.stop - 1) / a.elem_byte_cap + 1 - r.start / a.elem_byte_cap)).getD i 0) 0 := by
      rw [hpt]
      exact hdi
    rw [hdi2]
    exact hkzg _ _ i (by rw [hplen]; exact hilen)
  rw [if_neg (fun h => h hlen_eq1), if_neg (fun h => h hlen_eq2), if_neg hguard,
    if_pos hall]

/-- C1: for every payload and every non-empty byte range lying within the
payload and within a single polynomial's span, verifying the proof produced
by `payload_proof` against the honest statement
`{range, payload[range], commit, common}` — with `commit`/`common` produced
by `disperse` on that payload — returns the success outcome `Ok(Ok(()))`, for
both the small-range and the large-range engine. The out-of-scope KZG
collaborators are assumed correct (`hmo`, `hkzg`): `multi_open` returns one
opening proof per point and `verify` accepts those proofs against the
commitment of the same polynomial at the corresponding point and evaluation. -/
theorem claim_C1 (a : Advz) (payload : List Nat) (r : BRange)
    (hc : 0 < a.elem_byte_cap) (hcs : 0 < a.payload_chunk_size)
    (hdom : a.payload_chunk_size ≤ a.domain_size)
    (hmo : ∀ p pts, (a.multiOpen p pts).length = pts.length)
    (hkzg : ∀ p pts i, i < pts.length →
      a.kzgVerify (a.commit p) (pts.getD i 0) (p.getD (pts.getD i 0) 0)
        ((a.multiOpen p pts).getD i 0) = true)
    (hne : r.start < r.stop) (hin : r.stop ≤ payload.length)
    (hspan : (a.range_elem_to_poly (a.range_byte_to_elem r)).len = 1) :
    (a.payload_proof_small payload r).map
      (fun pf => a.payload_verify_small (a.honestStatement payload r) pf) =
      Except.ok VResult.vok ∧
    (a.payload_proof_large payload r).map
      (fun pf => a.payload_verify_large (a.honestStatement payload r) pf) =
      Except.ok VResult.vok :=
  ⟨roundtrip_small_aux a payload r hc hcs hdom hmo hkzg hne hin hspan,
    roundtrip_large_aux a payload r hc hcs hne hin hspan⟩

/-- Witness for C1 at the 20-byte payload and range `[1, 3)` (inside
polynomial 0), with the trivially correct concrete collaborators of `advzA`. -/
theorem claim_C1_witness :
    (advzA.payload_proof_small payloadA rangeA).map
      (fun pf => advzA.payload_verify_small (advzA.honestStatement payloadA rangeA) pf) =
      Except.ok VResult.vok ∧
    (advzA.payload_proof_large payloadA rangeA).map
      (fun pf => advzA.payload_verify_large (advzA.honestStatement payloadA rangeA) pf) =
      Except.ok VResult.vok :=
  claim_C1 advzA payloadA rangeA (by decide) (by decide) (by decide)
    (fun _ pts => by simp [advzA])
    (fun _ _ _ _ => rfl)
    (by decide) (by decide) (by decide)
